import Mathlib

/-!
Verification of the MESSAGE matrix-preprocessing core of SBMLlint
(`SBMLLint/games/message.py`): stoichiometry-matrix construction, LU-based
row reduction, reaction classification, and matrix-to-reaction conversion.

Stoichiometric coefficients, stored as Python floats by the source, are
modelled as rationals; the claims under study concern exact zero/sign and
ordering structure, which the rational model captures faithfully.  The
pivoted LU decomposition obtained from `scipy.linalg.lu` is modelled as
Gaussian elimination with partial pivoting in the LAPACK `getrf`
convention (pivot = first row of maximal absolute value at or below the
diagonal), which is the routine that call wraps.
-/

/-- Modelled from the spec: the distinguished empty-set placeholder name
(`cn.EMPTYSET` from the common constants module, which is not part of the
analysed sources).  Only its identity matters. -/
def EMPTYSET : String := "EmptySet"

/-- Modelled from the spec: the category tag marking boundary reactions
(`cn.REACTION_BOUNDARY` from the common constants module). -/
def REACTION_BOUNDARY : String := "reaction_boundary"

/-- Modelled from the spec: the one-to-one category name (`cn.REACTION_1_1`). -/
def REACTION_1_1 : String := "reaction_1_1"

/-- Modelled from the spec: the one-to-many category name (`cn.REACTION_1_n`). -/
def REACTION_1_n : String := "reaction_1_n"

/-- Modelled from the spec: the many-to-one category name (`cn.REACTION_n_1`). -/
def REACTION_n_1 : String := "reaction_n_1"

/-- Modelled from the spec: the default many-to-many category name
(`cn.REACTION_n_n`). -/
def REACTION_n_n : String := "reaction_n_n"

/-- `REACTION_REDUNDANT` as defined at the top of message.py. -/
def REACTION_REDUNDANT : String := "reaction_redundant"

/-- `REACTION_ERROR` as defined at the top of message.py. -/
def REACTION_ERROR : String := "reaction_error"

/-- A molecule: an identity given by its name (common/molecule.py, upstream
of the analysed sources; only the name is consulted by message.py). -/
structure Molecule where
  name : String
deriving DecidableEq, Repr

/-- A molecule paired with its stoichiometric coefficient
(common/molecule.py `MoleculeStoichiometry`). -/
structure MoleculeStoichiometry where
  molecule : Molecule
  stoichiometry : ℚ
deriving DecidableEq, Repr

/-- A reaction as message.py consumes it: label, reactant and product
`MoleculeStoichiometry` lists, and a category tag (common/reaction.py,
upstream of the analysed sources; only these four fields are consulted). -/
structure Reaction where
  label : String
  reactants : List MoleculeStoichiometry
  products : List MoleculeStoichiometry
  category : String
deriving DecidableEq, Repr

/-- Modelled from the spec: the upstream parsed model
(common/simple_sbml.py `SimpleSBML`); message.py reads its `reactions`
attribute and uses its name-lookup capabilities. -/
structure SimpleSBML where
  reactions : List Reaction
deriving Repr

/-- Modelled from the spec: the name-to-Molecule lookup capability of the
upstream model (`simple.getMolecule`); message.py only uses the returned
molecule's identity, so the lookup is modelled as total. -/
def SimpleSBML.getMolecule (_simple : SimpleSBML) (name : String) : Molecule :=
  ⟨name⟩

/-- The `ReactionSummary` namedtuple of message.py. -/
structure ReactionSummary where
  label : String
  reactants : List MoleculeStoichiometry
  products : List MoleculeStoichiometry
  category : String
deriving DecidableEq, Repr

/-- A (category name, predicate) pair: `cn.ReactionCategory`.  Predicates
take (reactant count, product count, reactant coefficients, product
coefficients), exactly as in message.py. -/
structure ReactionCategory where
  category : String
  predicate : ℕ → ℕ → List ℚ → List ℚ → Bool

/-- The ordered category list `REACTION_SUMMARY_CATEGORIES` of message.py.
Python's short-circuit conjunction makes the `r[0]` / `p[0]` accesses
reachable only when the corresponding count (which equals the list's
length at every call site) is 1; the embedding renders those accesses as
`getD 0 0`. -/
def REACTION_SUMMARY_CATEGORIES : List ReactionCategory :=
  [ ⟨REACTION_REDUNDANT, fun x y _ _ => x == 0 && y == 0⟩,
    ⟨REACTION_ERROR, fun x y _ _ => (x == 0 && y != 0) || (x != 0 && y == 0)⟩,
    ⟨REACTION_1_1, fun x y r p => x == 1 && y == 1 && (r.sum == p.sum)⟩,
    ⟨REACTION_1_n, fun x _ r p =>
      x == 1 && ((p.countP (fun e => r.getD 0 0 ≤ e)) == p.length)⟩,
    ⟨REACTION_n_1, fun _ y r p =>
      y == 1 && ((r.countP (fun e => p.getD 0 0 ≤ e)) == r.length)⟩ ]

/-- `Message.getReactionSummaryCategory`: filter out empty-set placeholder
entries, then return the first matching category, defaulting to
`REACTION_n_n`.  (The method reads no state from its object, so it is
embedded as a plain function.) -/
def getReactionSummaryCategory
    (reactants products : List MoleculeStoichiometry) : String :=
  let num_reactants :=
    (reactants.filter (fun r => r.molecule.name != EMPTYSET)).length
  let num_products :=
    (products.filter (fun p => p.molecule.name != EMPTYSET)).length
  let stoichiometry_reactants :=
    (reactants.filter (fun r => r.molecule.name != EMPTYSET)).map
      (·.stoichiometry)
  let stoichiometry_products :=
    (products.filter (fun p => p.molecule.name != EMPTYSET)).map
      (·.stoichiometry)
  match REACTION_SUMMARY_CATEGORIES.find? (fun c =>
      c.predicate num_reactants num_products
        stoichiometry_reactants stoichiometry_products) with
  | some c => c.category
  | none => REACTION_n_n

/-- The classification cascade exactly as the specification words it
(spec section 4.3), over the already-filtered real counts and coefficient
lists: redundant, error, one-to-one, one-to-many, many-to-one in fixed
priority order, defaulting to many-to-many.  Stated only to compare the
source classifier against the specification's wording. -/
def classifySpec (x y : ℕ) (r p : List ℚ) : String :=
  if x = 0 ∧ y = 0 then REACTION_REDUNDANT
  else if (x = 0 ∧ y ≠ 0) ∨ (x ≠ 0 ∧ y = 0) then REACTION_ERROR
  else if x = 1 ∧ y = 1 ∧ r.sum = p.sum then REACTION_1_1
  else if x = 1 ∧ ∀ e ∈ p, r.getD 0 0 ≤ e then REACTION_1_n
  else if y = 1 ∧ ∀ e ∈ r, p.getD 0 0 ≤ e then REACTION_n_1
  else REACTION_n_n

/-- A pandas DataFrame of floats as message.py uses it: a row-label list, a
column-label list, and a positional entry function.  Entries outside the
`index.length` by `columns.length` grid are irrelevant. -/
structure DFrame where
  index : List String
  columns : List String
  data : ℕ → ℕ → ℚ

/-- Positionally stored entry looked up by labels, taking (as pandas does
for a label occurring once) the first occurrence of each label. -/
def DFrame.cell (df : DFrame) (mol lab : String) : ℚ :=
  df.data (df.index.indexOf mol) (df.columns.indexOf lab)

/-- The pandas chained assignment `df[lab][mol] = v` of
`getStoichiometryMatrix`.  When `lab` names exactly one column,
`df[lab]` is a Series view and the assignment writes through to every row
labelled `mol` (or nowhere if no row is).  When `lab` is duplicated,
`df[lab]` is a DataFrame copy, so the assignment mutates only the copy and
the frame is unchanged; `lab` absent never occurs at the call sites. -/
def DFrame.setCell (df : DFrame) (lab mol : String) (v : ℚ) : DFrame :=
  if df.columns.count lab = 1 then
    { df with data := fun i j =>
        if j = df.columns.indexOf lab ∧ df.index[i]? = some mol then v
        else df.data i j }
  else df

/-- The dict comprehension of `getStoichiometryMatrix`
(`s!x.molecule.name: x.stoichiometry for x in sides`): a name-to-coefficient
map in which a repeated name keeps its last-listed coefficient. -/
def stoichDict (side : List MoleculeStoichiometry) : String → Option ℚ :=
  fun name =>
    (side.reverse.find? (fun ms => ms.molecule.name == name)).map
      (·.stoichiometry)

/-- The names a reaction touches: the loop domain
`list(set(reactants.keys()).union(products.keys()))` of
`getStoichiometryMatrix`, as a duplicate-free list (Python's set order is
unspecified; each name receives one assignment of one fixed value, so the
resulting frame does not depend on the order). -/
def reactionMoleculeNames (reaction : Reaction) : List String :=
  (reaction.reactants.map (·.molecule.name)
    ++ reaction.products.map (·.molecule.name)).dedup

/-- The net stoichiometry
`products.get(name, 0.0) - reactants.get(name, 0.0)` computed by the inner
loop of `getStoichiometryMatrix`. -/
def netStoich (reaction : Reaction) (name : String) : ℚ :=
  ((stoichDict reaction.products) name).getD 0
    - ((stoichDict reaction.reactants) name).getD 0

/-- The inner loop body of `getStoichiometryMatrix` for one reaction:
for each touched molecule name, write the net stoichiometry into the
reaction's column. -/
def applyReaction (df : DFrame) (reaction : Reaction) : DFrame :=
  (reactionMoleculeNames reaction).foldl
    (fun d name => d.setCell reaction.label name (netStoich reaction name))
    df

/-- `Message.getStoichiometryMatrix`: an all-zero molecules-by-reaction
labels frame, then one pass of net-stoichiometry assignments per
reaction. -/
def getStoichiometryMatrix
    (reactions : List Reaction) (molecules : List String) : DFrame :=
  let reaction_labels := reactions.map (·.label)
  let stoichiometry_matrix : DFrame :=
    ⟨molecules, reaction_labels, fun _ _ => 0⟩
  reactions.foldl applyReaction stoichiometry_matrix

/-- `Message._getNonBoundaryReactions`: keep the reactions whose category
tag is not the boundary tag. -/
def _getNonBoundaryReactions (simple : SimpleSBML) : List Reaction :=
  simple.reactions.filter (fun reaction =>
    reaction.category != REACTION_BOUNDARY)

/-- `Message._getNonBoundaryMolecules`: the union of the reactant and
product names over the given reactions (a Python set, modelled as a
duplicate-free list). -/
def _getNonBoundaryMolecules (reactions : List Reaction) : List String :=
  (reactions.flatMap (fun reaction =>
    reaction.reactants.map (·.molecule.name)
      ++ reaction.products.map (·.molecule.name))).dedup

/-- The state `Message.__init__` computes before any graph work: the
non-boundary reactions, their molecule names, and the stoichiometry
matrix built from exactly those two. -/
structure Message where
  reactions : List Reaction
  molecules : List String
  stoichiometry_matrix : DFrame

/-- `Message.__init__`. -/
def mkMessage (simple : SimpleSBML) : Message :=
  let reactions := _getNonBoundaryReactions simple
  let molecules := _getNonBoundaryMolecules reactions
  ⟨reactions, molecules, getStoichiometryMatrix reactions molecules⟩

/-- Index of the first occurrence of the maximal absolute value in a list
(the LAPACK `idamax` pivot-search convention used by `getrf`); 0 on the
empty list. -/
def argmaxAbs (l : List ℚ) : ℕ :=
  (l.foldl
    (fun (acc : ℕ × ℕ × ℚ) v =>
      if acc.2.2 < |v| then (acc.2.1, acc.2.1 + 1, |v|)
      else (acc.1, acc.2.1 + 1, acc.2.2))
    (0, 0, -1)).1

/-- Swap the entries at positions `i` and `j` of a list (the row
interchange of partial pivoting); out-of-range positions leave the list
unchanged. -/
def listSwap {α : Type} (l : List α) (i j : ℕ) : List α :=
  match l.get? i, l.get? j with
  | some a, some b => (l.set i b).set j a
  | _, _ => l

/-- State of the in-place `getrf` elimination: the working `m` by `n`
array (multipliers stored below the diagonal, the upper factor on and
above it) and the row provenance list (`perm.get k` = index of the input
row now sitting at row `k`). -/
structure LUState where
  mat : ℕ → ℕ → ℚ
  perm : List ℕ

/-- One `getrf` step at diagonal position `k` of an `m`-row array: choose
as pivot the first row at or below `k` of maximal absolute value in column
`k`, interchange it with row `k`, and (for a nonzero pivot) store the
multipliers in column `k` below the diagonal and subtract the scaled pivot
row from the rows below; a zero pivot (the whole subcolumn is zero) leaves
the rows untouched, as `getrf` does. -/
def luStep (m : ℕ) (st : LUState) (k : ℕ) : LUState :=
  let colVals := (List.range (m - k)).map (fun t => st.mat (k + t) k)
  let p := k + argmaxAbs colVals
  let swapped : ℕ → ℕ → ℚ := fun i j =>
    if i = k then st.mat p j else if i = p then st.mat k j else st.mat i j
  let perm1 := listSwap st.perm k p
  let pivot := swapped k k
  ⟨fun i j =>
    if pivot = 0 then swapped i j
    else if k < i ∧ i < m then
      if j < k then swapped i j
      else if j = k then swapped i k / pivot
      else swapped i j - swapped i k / pivot * swapped k j
    else swapped i j,
  perm1⟩

/-- The `getrf` elimination loop: steps at diagonal positions
`k, k+1, ...`, `fuel` many of them. -/
def luLoop (m : ℕ) : ℕ → ℕ → LUState → LUState
  | 0, _, st => st
  | fuel + 1, k, st => luLoop m fuel (k + 1) (luStep m st k)

/-- `scipy.linalg.lu` on an `m` by `n` array `a`, modelled as the
`getrf` factorization it wraps: returns the unit-lower-triangular factor
`l` (`m` by `min m n`), the upper factor `u` (`min m n` by `n`), and the
row provenance `perm` with `a.get (perm.get i) = (l * u).get i`; scipy's
permutation-matrix output `p` and the source's subsequent
`inv(p)`-and-locate-the-1 recovery of the row order amount exactly to
reading off `perm`. -/
def luDecompose (m n : ℕ) (a : ℕ → ℕ → ℚ) :
    List (List ℚ) × List (List ℚ) × List ℕ :=
  let final := luLoop m (min m n) 0 ⟨a, List.range m⟩
  let l := (List.range m).map (fun i =>
    (List.range (min m n)).map (fun j =>
      if j = i then 1 else if j < i then final.mat i j else 0))
  let u := (List.range (min m n)).map (fun i =>
    (List.range n).map (fun j => if i ≤ j then final.mat i j else 0))
  (l, u, final.perm)

/-- `Message.decomposeMatrix`: transpose the frame (reactions become rows),
factor it, relabel the upper factor's rows by the pivot-permuted reaction
labels, and transpose back.  pandas accepts the relabelled frame only when
the upper factor's row count `min m n` equals the label count `m` (that
is, when there are no more reactions than molecules); otherwise the
`pd.DataFrame(u, index=new_idx, ...)` construction raises, which is
modelled as the error result. -/
def decomposeMatrix (mat_df : DFrame) :
    Except String (List (List ℚ) × DFrame) :=
  let m := mat_df.columns.length
  let n := mat_df.index.length
  let mat_t : ℕ → ℕ → ℚ := fun i j => mat_df.data j i
  let lu := luDecompose m n mat_t
  let new_idx := lu.2.2.map (fun i => mat_df.columns.getD i "")
  if min m n = m then
    Except.ok (lu.1,
      ⟨mat_df.index, new_idx,
        fun i j => ((lu.2.1.getD j []).getD i 0)⟩)
  else
    Except.error "ValueError"

/-- A raised Python exception. -/
inductive PyError where
  | nameError : String → PyError
deriving DecidableEq, Repr

/-- The module-scope view of the name `getReactionSummaryCategory` inside
`convertMatrixToReactions`: the loop body refers to it as a bare name, but
message.py binds it only as a method of class `Message`, never at module
or builtin scope, so the reference resolves to nothing and evaluating the
call raises `NameError`. -/
def moduleScopeCategoryFn :
    Option (List MoleculeStoichiometry → List MoleculeStoichiometry → String) :=
  none

/-- The reactant list one loop iteration of `convertMatrixToReactions`
builds for a column: rows with strictly negative entries, coefficient the
absolute value. -/
def columnReactants (simple : SimpleSBML) (mat_df : DFrame)
    (reaction_name : String) : List MoleculeStoichiometry :=
  (mat_df.index.filter (fun molecule =>
      decide (mat_df.cell molecule reaction_name < 0))).map (fun molecule =>
    ⟨simple.getMolecule molecule, |mat_df.cell molecule reaction_name|⟩)

/-- The product list one loop iteration of `convertMatrixToReactions`
builds for a column: rows with strictly positive entries, coefficient
taken as-is. -/
def columnProducts (simple : SimpleSBML) (mat_df : DFrame)
    (reaction_name : String) : List MoleculeStoichiometry :=
  (mat_df.index.filter (fun molecule =>
      decide (0 < mat_df.cell molecule reaction_name))).map (fun molecule =>
    ⟨simple.getMolecule molecule, mat_df.cell molecule reaction_name⟩)

/-- One loop iteration of `Message.convertMatrixToReactions`: build the
column's reactant and product lists, then construct the `ReactionSummary`
whose category field calls the bare name `getReactionSummaryCategory` -
which is unbound at module scope (`moduleScopeCategoryFn`), so the
iteration raises `NameError`.  (The loop's `simple.getReaction` lookup
binds a variable that is never read and is omitted.) -/
def convertStep (simple : SimpleSBML) (mat_df : DFrame)
    (acc : Except PyError (List ReactionSummary)) (reaction_name : String) :
    Except PyError (List ReactionSummary) :=
  match acc with
  | Except.error e => Except.error e
  | Except.ok reactions =>
    let reactants := columnReactants simple mat_df reaction_name
    let products := columnProducts simple mat_df reaction_name
    match moduleScopeCategoryFn with
    | none => Except.error (PyError.nameError "getReactionSummaryCategory")
    | some f =>
      Except.ok (reactions ++
        [⟨reaction_name, reactants, products, f reactants products⟩])

/-- `Message.convertMatrixToReactions` as written: the column loop over
`convertStep` accumulating the summary list, with a raised exception
aborting the loop. -/
def convertMatrixToReactions (simple : SimpleSBML) (mat_df : DFrame) :
    Except PyError (List ReactionSummary) :=
  mat_df.columns.foldl (convertStep simple mat_df) (Except.ok [])

/-- `convertMatrixToReactions` as the spec (section 4.4) words it and as
the source evidently intends, reading the category call as
`self.getReactionSummaryCategory`: one summary per column in column
order. -/
def convertMatrixToReactionsIntended (simple : SimpleSBML) (mat_df : DFrame) :
    List ReactionSummary :=
  mat_df.columns.map (fun reaction_name =>
    let reactants := columnReactants simple mat_df reaction_name
    let products := columnProducts simple mat_df reaction_name
    ⟨reaction_name, reactants, products,
      getReactionSummaryCategory reactants products⟩)

/-- Concrete two-reaction frame used to evaluate the reducer: rows A, B;
columns R1, R2; A row (1, 2), B row (2, 1).  Its transpose has leading
column (1, 2), so partial pivoting interchanges the two reaction rows. -/
def pivotExample : DFrame :=
  ⟨["A", "B"], ["R1", "R2"],
    fun i j => if i = 0 then (if j = 0 then 1 else 2)
      else (if j = 0 then 2 else 1)⟩


/-- The ordered first-match evaluation of `REACTION_SUMMARY_CATEGORIES`
agrees with the specification's classification cascade, for every count
pair and every pair of coefficient lists. -/
lemma cascade_eq (x y : ℕ) (r p : List ℚ) :
    (match REACTION_SUMMARY_CATEGORIES.find? (fun c =>
        c.predicate x y r p) with
      | some c => c.category
      | none => REACTION_n_n) = classifySpec x y r p := by
  have e1 : (x == 0 && y == 0) = decide (x = 0 ∧ y = 0) := by
    rw [Bool.eq_iff_iff]
    simp
  have e2 : ((x == 0 && y != 0) || (x != 0 && y == 0))
      = decide ((x = 0 ∧ y ≠ 0) ∨ (x ≠ 0 ∧ y = 0)) := by
    rw [Bool.eq_iff_iff]
    simp
  have e3 : (x == 1 && y == 1 && (r.sum == p.sum))
      = decide (x = 1 ∧ y = 1 ∧ r.sum = p.sum) := by
    rw [Bool.eq_iff_iff]
    simp [and_assoc]
  have e4 : (x == 1 && ((p.countP (fun e => r.getD 0 0 ≤ e)) == p.length))
      = decide (x = 1 ∧ ∀ e ∈ p, r.getD 0 0 ≤ e) := by
    rw [Bool.eq_iff_iff]
    simp [List.countP_eq_length]
  have e5 : (y == 1 && ((r.countP (fun e => p.getD 0 0 ≤ e)) == r.length))
      = decide (y = 1 ∧ ∀ e ∈ r, p.getD 0 0 ≤ e) := by
    rw [Bool.eq_iff_iff]
    simp [List.countP_eq_length]
  unfold classifySpec REACTION_SUMMARY_CATEGORIES
  by_cases h1 : x = 0 ∧ y = 0
  · rw [if_pos h1]
    simp only [List.find?, e1, decide_eq_true h1]
  · by_cases h2 : (x = 0 ∧ y ≠ 0) ∨ (x ≠ 0 ∧ y = 0)
    · rw [if_neg h1, if_pos h2]
      simp only [List.find?, e1, e2, decide_eq_false h1, decide_eq_true h2]
    · by_cases h3 : x = 1 ∧ y = 1 ∧ r.sum = p.sum
      · rw [if_neg h1, if_neg h2, if_pos h3]
        simp only [List.find?, e1, e2, e3, decide_eq_false h1,
          decide_eq_false h2, decide_eq_true h3]
      · by_cases h4 : x = 1 ∧ ∀ e ∈ p, r.getD 0 0 ≤ e
        · rw [if_neg h1, if_neg h2, if_neg h3, if_pos h4]
          simp only [List.find?, e1, e2, e3, e4, decide_eq_false h1,
            decide_eq_false h2, decide_eq_false h3, decide_eq_true h4]
        · by_cases h5 : y = 1 ∧ ∀ e ∈ r, p.getD 0 0 ≤ e
          · rw [if_neg h1, if_neg h2, if_neg h3, if_neg h4, if_pos h5]
            simp only [List.find?, e1, e2, e3, e4, e5, decide_eq_false h1,
              decide_eq_false h2, decide_eq_false h3, decide_eq_false h4,
              decide_eq_true h5]
          · rw [if_neg h1, if_neg h2, if_neg h3, if_neg h4, if_neg h5]
            simp only [List.find?, e1, e2, e3, e4, e5, decide_eq_false h1,
              decide_eq_false h2, decide_eq_false h3, decide_eq_false h4,
              decide_eq_false h5]

/-- Every result of the specification cascade is one of the six fixed
category names. -/
lemma classifySpec_mem (x y : ℕ) (r p : List ℚ) :
    classifySpec x y r p ∈
      [REACTION_REDUNDANT, REACTION_ERROR, REACTION_1_1,
        REACTION_1_n, REACTION_n_1, REACTION_n_n] := by
  unfold classifySpec
  split_ifs <;> simp

/-- C6: the classifier evaluates its five category predicates in fixed
priority order with first match winning, agreeing for every input with the
cascade stated in the spec: redundant when x=0 and y=0; error when exactly
one of x=0, y=0 holds; one-to-one when x=1, y=1 and the coefficient sums
agree; one-to-many when x=1 and every product coefficient is at least the
single reactant's; many-to-one when y=1 and every reactant coefficient is
at least the single product's; else many-to-many. -/
theorem getReactionSummaryCategory_eq_classifySpec
    (reactants products : List MoleculeStoichiometry) :
    getReactionSummaryCategory reactants products =
      classifySpec
        ((reactants.filter (fun r => r.molecule.name != EMPTYSET)).length)
        ((products.filter (fun p => p.molecule.name != EMPTYSET)).length)
        ((reactants.filter (fun r => r.molecule.name != EMPTYSET)).map
          (·.stoichiometry))
        ((products.filter (fun p => p.molecule.name != EMPTYSET)).map
          (·.stoichiometry)) := by
  simp only [getReactionSummaryCategory]
  rw [cascade_eq]

/-- C7: the classifier is total: for every reactant and product list it
returns one of the six fixed category names (so in particular it never
fails; the source's guarded r[0]/p[0] accesses are reached only under a
count of one, and that count always equals the coefficient list's length,
as the final conjunct records); classifying empty-set to A yields error,
as does A + B to empty-set. -/
theorem getReactionSummaryCategory_total :
    (∀ reactants products : List MoleculeStoichiometry,
        getReactionSummaryCategory reactants products ∈
          [REACTION_REDUNDANT, REACTION_ERROR, REACTION_1_1,
            REACTION_1_n, REACTION_n_1, REACTION_n_n])
    ∧ getReactionSummaryCategory [⟨⟨EMPTYSET⟩, 1⟩] [⟨⟨"A"⟩, 1⟩]
        = REACTION_ERROR
    ∧ getReactionSummaryCategory [⟨⟨"A"⟩, 1⟩, ⟨⟨"B"⟩, 1⟩] [⟨⟨EMPTYSET⟩, 1⟩]
        = REACTION_ERROR
    ∧ ∀ side : List MoleculeStoichiometry,
        ((side.filter (fun ms => ms.molecule.name != EMPTYSET)).map
            (·.stoichiometry)).length
          = (side.filter (fun ms => ms.molecule.name != EMPTYSET)).length := by
  refine ⟨fun reactants products => ?_, by decide, by decide,
    fun side => by simp⟩
  simp only [getReactionSummaryCategory]
  rw [cascade_eq]
  exact classifySpec_mem _ _ _ _

/-- C10: one real reactant and one real product with unequal coefficients,
the product's at least the reactant's, classify as one-to-many (not
many-to-many and not error): the one-to-many predicate does not require
more than one product. -/
theorem classifier_unequal_pair_is_one_to_many
    (reactants products : List MoleculeStoichiometry)
    (a b : MoleculeStoichiometry)
    (ha : reactants.filter (fun r => r.molecule.name != EMPTYSET) = [a])
    (hb : products.filter (fun p => p.molecule.name != EMPTYSET) = [b])
    (hle : a.stoichiometry ≤ b.stoichiometry)
    (hne : a.stoichiometry ≠ b.stoichiometry) :
    getReactionSummaryCategory reactants products = REACTION_1_n := by
  simp only [getReactionSummaryCategory, ha, hb, List.map_cons, List.map_nil,
    List.length_cons, List.length_nil, Nat.zero_add]
  rw [cascade_eq]
  unfold classifySpec
  rw [if_neg (by simp), if_neg (by simp),
    if_neg (fun hc => hne (by simpa using hc.2.2)),
    if_pos ⟨rfl, fun e he => by
      rw [List.mem_singleton] at he
      subst he
      simpa using hle⟩]

/-- Witness for the one-to-many classification at the concrete input
A (coefficient 1) to B (coefficient 2). -/
theorem classifier_unequal_pair_is_one_to_many_witness :
    getReactionSummaryCategory [⟨⟨"A"⟩, 1⟩] [⟨⟨"B"⟩, 2⟩] = REACTION_1_n :=
  classifier_unequal_pair_is_one_to_many _ _ ⟨⟨"A"⟩, 1⟩ ⟨⟨"B"⟩, 2⟩
    (by decide) (by decide) (by decide) (by decide)

/-- An error accumulator is absorbing for the converter's loop. -/
lemma convert_foldl_error (simple : SimpleSBML) (mat_df : DFrame)
    (cols : List String) (e : PyError) :
    cols.foldl (convertStep simple mat_df) (Except.error e)
      = Except.error e := by
  induction cols with
  | nil => rfl
  | cons c cs ih => exact ih

/-- On any matrix with at least one column, `convertMatrixToReactions`
stops with NameError at the first column's category call. -/
lemma convertMatrixToReactions_fails_on_nonempty (simple : SimpleSBML)
    (mat_df : DFrame) (h : mat_df.columns ≠ []) :
    convertMatrixToReactions simple mat_df
      = Except.error (PyError.nameError "getReactionSummaryCategory") := by
  unfold convertMatrixToReactions
  cases hc : mat_df.columns with
  | nil => exact absurd hc h
  | cons c cs => exact convert_foldl_error simple mat_df cs _

/-- C1: evaluating the code on a one-column matrix.  The converter never
reaches the point of storing a classifier category: constructing the first
column's summary evaluates the bare name `getReactionSummaryCategory`,
which message.py binds only as a method of class `Message`, so the call
raises NameError instead of producing a summary. -/
theorem convertMatrixToReactions_nameError_one_column :
    convertMatrixToReactions
      ⟨[⟨"R1", [⟨⟨"A"⟩, 1⟩], [⟨⟨"B"⟩, 1⟩], "ordinary"⟩]⟩
      ⟨["A", "B"], ["R1"], fun i _ => if i = 0 then -1 else 1⟩
      = Except.error (PyError.nameError "getReactionSummaryCategory") := rfl

/-- C8: evaluating the code on a two-column matrix.  No summary list is
produced at all - the first iteration's category call raises NameError -
so in particular the output does not contain one summary per column. -/
theorem convertMatrixToReactions_nameError_two_columns :
    convertMatrixToReactions ⟨[]⟩
      ⟨["A"], ["R1", "R2"], fun _ j => if j = 0 then 1 else -1⟩
      = Except.error (PyError.nameError "getReactionSummaryCategory") := rfl

/-- For reference against the spec's account of the loop body: the
intended converter (category call read as `self.getReactionSummaryCategory`)
returns one summary per column, labelled in column order, with the
sign-partitioned reactant/product lists and the classifier's category. -/
theorem convertMatrixToReactionsIntended_spec (simple : SimpleSBML)
    (mat_df : DFrame) :
    convertMatrixToReactionsIntended simple mat_df
        = mat_df.columns.map (fun c =>
            ⟨c, columnReactants simple mat_df c,
              columnProducts simple mat_df c,
              getReactionSummaryCategory
                (columnReactants simple mat_df c)
                (columnProducts simple mat_df c)⟩)
    ∧ (convertMatrixToReactionsIntended simple mat_df).map (·.label)
        = mat_df.columns := by
  refine ⟨rfl, ?_⟩
  unfold convertMatrixToReactionsIntended
  rw [List.map_map]
  exact List.map_id _

/-- Writing a cell changes no frame labels. -/
lemma setCell_index (df : DFrame) (lab mol : String) (v : ℚ) :
    (df.setCell lab mol v).index = df.index := by
  unfold DFrame.setCell
  split <;> rfl

/-- Writing a cell changes no frame labels. -/
lemma setCell_columns (df : DFrame) (lab mol : String) (v : ℚ) :
    (df.setCell lab mol v).columns = df.columns := by
  unfold DFrame.setCell
  split <;> rfl

/-- A cell write on a row the frame does not have is a no-op. -/
lemma setCell_data_of_none (df : DFrame) (lab mol : String) (v : ℚ)
    (i j : ℕ) (hi : df.index[i]? = none) :
    (df.setCell lab mol v).data i j = df.data i j := by
  unfold DFrame.setCell
  split
  · simp [hi]
  · rfl

/-- One reaction's pass leaves the frame labels unchanged. -/
lemma applyReaction_index (df : DFrame) (reaction : Reaction) :
    (applyReaction df reaction).index = df.index := by
  unfold applyReaction
  generalize reactionMoleculeNames reaction = names
  induction names generalizing df with
  | nil => rfl
  | cons n ns ih => rw [List.foldl_cons, ih, setCell_index]

/-- One reaction's pass leaves the frame labels unchanged. -/
lemma applyReaction_columns (df : DFrame) (reaction : Reaction) :
    (applyReaction df reaction).columns = df.columns := by
  unfold applyReaction
  generalize reactionMoleculeNames reaction = names
  induction names generalizing df with
  | nil => rfl
  | cons n ns ih => rw [List.foldl_cons, ih, setCell_columns]

/-- The reaction fold leaves the frame labels unchanged. -/
lemma foldl_applyReaction_index (rs : List Reaction) (df : DFrame) :
    (rs.foldl applyReaction df).index = df.index := by
  induction rs generalizing df with
  | nil => rfl
  | cons r rs ih => rw [List.foldl_cons, ih, applyReaction_index]

/-- The reaction fold leaves the frame labels unchanged. -/
lemma foldl_applyReaction_columns (rs : List Reaction) (df : DFrame) :
    (rs.foldl applyReaction df).columns = df.columns := by
  induction rs generalizing df with
  | nil => rfl
  | cons r rs ih => rw [List.foldl_cons, ih, applyReaction_columns]

/-- The matrix builder's row labels are the molecule list as given. -/
lemma getStoichiometryMatrix_index (reactions : List Reaction)
    (molecules : List String) :
    (getStoichiometryMatrix reactions molecules).index = molecules := by
  unfold getStoichiometryMatrix
  rw [foldl_applyReaction_index]

/-- The matrix builder's column labels are the reaction labels as given,
in order, duplicates included. -/
lemma getStoichiometryMatrix_columns (reactions : List Reaction)
    (molecules : List String) :
    (getStoichiometryMatrix reactions molecules).columns
      = reactions.map (·.label) := by
  unfold getStoichiometryMatrix
  rw [foldl_applyReaction_columns]

/-- Pointwise effect of a run of cell writes (one reaction's inner loop)
on a row the frame does not have: none. -/
lemma foldl_setCell_data_none (lab : String) (f : String → ℚ)
    (mols : List String) (df : DFrame) (i j : ℕ)
    (hi : df.index[i]? = none) :
    ((mols.foldl (fun d n => d.setCell lab n (f n)) df).data) i j
      = df.data i j := by
  induction mols generalizing df with
  | nil => rfl
  | cons n ns ih =>
    rw [List.foldl_cons, ih (df.setCell lab n (f n))
        (by rw [setCell_index]; exact hi),
      setCell_data_of_none df lab n (f n) i j hi]

/-- Pointwise effect of a run of cell writes (one reaction's inner loop)
on row `i` labelled `m`: the cell in the written column becomes the
written value as soon as `m` is one of the written names and the column
label is unduplicated; every other cell keeps its value. -/
lemma foldl_setCell_data_some (lab : String) (f : String → ℚ)
    (mols : List String) (df : DFrame) (i j : ℕ) (m : String)
    (hm : df.index[i]? = some m) :
    ((mols.foldl (fun d n => d.setCell lab n (f n)) df).data) i j
      = if j = df.columns.indexOf lab ∧ m ∈ mols
            ∧ df.columns.count lab = 1
        then f m else df.data i j := by
  induction mols generalizing df with
  | nil => simp
  | cons n ns ih =>
    rw [List.foldl_cons,
      ih (df.setCell lab n (f n)) (by rw [setCell_index]; exact hm),
      setCell_columns]
    by_cases hc : df.columns.count lab = 1
    · unfold DFrame.setCell
      rw [if_pos hc]
      by_cases hj : j = df.columns.indexOf lab
      · by_cases hmem : m ∈ ns
        · rw [if_pos ⟨hj, hmem, hc⟩,
            if_pos ⟨hj, List.mem_cons_of_mem n hmem, hc⟩]
        · rw [if_neg (fun hcond => hmem hcond.2.1)]
          show (if j = df.columns.indexOf lab ∧ df.index[i]? = some n
              then f n else df.data i j) = _
          by_cases hmn : m = n
          · rw [if_pos ⟨hj, by rw [hm, hmn]⟩,
              if_pos ⟨hj, by rw [hmn]; exact List.mem_cons_self n ns, hc⟩,
              hmn]
          · rw [if_neg (fun hcond =>
                hmn (Option.some_inj.mp ((hm.symm.trans hcond.2)))),
              if_neg (fun hcond =>
                (List.mem_cons.mp hcond.2.1).elim hmn hmem)]
      · rw [if_neg (fun hcond => hj hcond.1)]
        show (if j = df.columns.indexOf lab ∧ df.index[i]? = some n
            then f n else df.data i j) = _
        rw [if_neg (fun hcond => hj hcond.1),
          if_neg (fun hcond => hj hcond.1)]
    · rw [if_neg (fun hcond => hc hcond.2.2),
        if_neg (fun hcond => hc hcond.2.2)]
      show (df.setCell lab n (f n)).data i j = df.data i j
      unfold DFrame.setCell
      rw [if_neg hc]

/-- A reaction's pass leaves every entry outside its own (unduplicated)
column unchanged. -/
lemma applyReaction_data_other (df : DFrame) (reaction : Reaction)
    (i j : ℕ)
    (h : j ≠ df.columns.indexOf reaction.label
      ∨ df.columns.count reaction.label ≠ 1) :
    (applyReaction df reaction).data i j = df.data i j := by
  unfold applyReaction
  cases hm : df.index[i]? with
  | none => exact foldl_setCell_data_none _ _ _ _ _ _ hm
  | some m =>
    rw [foldl_setCell_data_some _ _ _ _ _ _ m hm,
      if_neg (fun hcond => h.elim (fun h1 => h1 hcond.1)
        (fun h2 => h2 hcond.2.2))]

/-- A reaction's pass writes its own column: on row `i` labelled `m`, the
entry becomes the net stoichiometry whenever the reaction touches `m`, and
is otherwise left alone. -/
lemma applyReaction_data_self (df : DFrame) (reaction : Reaction)
    (i : ℕ) (m : String) (hm : df.index[i]? = some m)
    (hc : df.columns.count reaction.label = 1) :
    (applyReaction df reaction).data i
        (df.columns.indexOf reaction.label)
      = if m ∈ reactionMoleculeNames reaction then netStoich reaction m
        else df.data i (df.columns.indexOf reaction.label) := by
  unfold applyReaction
  rw [foldl_setCell_data_some _ _ _ _ _ _ m hm]
  by_cases hmem : m ∈ reactionMoleculeNames reaction
  · rw [if_pos ⟨rfl, hmem, hc⟩, if_pos hmem]
  · rw [if_neg (fun hcond => hmem hcond.2.1), if_neg hmem]

/-- A run of reaction passes none of which owns cell (i, j)'s column
leaves entry (i, j) unchanged. -/
lemma foldl_applyReaction_data_other (rs : List Reaction) (df : DFrame)
    (i j : ℕ)
    (h : ∀ r ∈ rs, j ≠ df.columns.indexOf r.label
      ∨ df.columns.count r.label ≠ 1) :
    (rs.foldl applyReaction df).data i j = df.data i j := by
  induction rs generalizing df with
  | nil => rfl
  | cons r rs ih =>
    rw [List.foldl_cons,
      ih (applyReaction df r) (fun r' hr' => by
        rw [applyReaction_columns]
        exact h r' (List.mem_cons_of_mem r hr')),
      applyReaction_data_other df r i j (h r (List.mem_cons_self r rs))]

/-- Names a side does not list have no dict entry. -/
lemma stoichDict_eq_none (side : List MoleculeStoichiometry) (name : String)
    (h : name ∉ side.map (·.molecule.name)) : stoichDict side name = none := by
  unfold stoichDict
  have hfind : side.reverse.find? (fun ms => ms.molecule.name == name)
      = none := by
    rw [List.find?_eq_none]
    intro ms hms
    simp only [beq_iff_eq]
    intro hname
    exact h (hname ▸ List.mem_map_of_mem (fun x => x.molecule.name)
      (List.mem_reverse.mp hms))
  rw [hfind]
  rfl

/-- `applyReaction_data_self`, stated for any way of writing the column
position. -/
lemma applyReaction_data_self_at (df : DFrame) (reaction : Reaction)
    (i j : ℕ) (m : String) (hm : df.index[i]? = some m)
    (hc : df.columns.count reaction.label = 1)
    (hj : j = df.columns.indexOf reaction.label) :
    (applyReaction df reaction).data i j
      = if m ∈ reactionMoleculeNames reaction then netStoich reaction m
        else df.data i j := by
  subst hj
  exact applyReaction_data_self df reaction i m hm hc

/-- Central builder computation: in a zero-initialized frame whose column
labels are the (duplicate-free) labels of `pre ++ r :: post`, the full
fold leaves cell (m, r.label) holding the net stoichiometry of `r` at `m`
when `r` touches `m`, and 0 otherwise. -/
lemma fold_split_cell (pre post : List Reaction) (r : Reaction)
    (molecules : List String) (m : String) (hm : m ∈ molecules)
    (L : List String) (hLdef : L = (pre ++ r :: post).map (·.label))
    (hlab : L.Nodup) :
    ((pre ++ r :: post).foldl applyReaction
        ⟨molecules, L, fun _ _ => 0⟩).data
        (molecules.indexOf m) (L.indexOf r.label)
      = if m ∈ reactionMoleculeNames r then netStoich r m else 0 := by
  have hmemL : r.label ∈ L := by
    rw [hLdef]
    exact List.mem_map_of_mem _ (by simp)
  have hcount : L.count r.label = 1 := List.count_eq_one_of_mem hlab hmemL
  have hsplitL : L = pre.map (·.label)
      ++ r.label :: post.map (·.label) := by
    simpa using hLdef
  have hnd : (pre.map (·.label)
      ++ r.label :: post.map (·.label)).Nodup := hsplitL ▸ hlab
  have hpre_ne : ∀ r' ∈ pre, r'.label ≠ r.label := by
    intro r' hr' heq
    exact (List.nodup_append.mp hnd).2.2
      (heq ▸ List.mem_map_of_mem _ hr') (List.mem_cons_self _ _)
  have hpost_ne : ∀ r' ∈ post, r'.label ≠ r.label := by
    intro r' hr' heq
    have h2 := (List.nodup_append.mp hnd).2.1
    rw [List.nodup_cons] at h2
    exact h2.1 (heq ▸ List.mem_map_of_mem _ hr')
  have hmemL_of : ∀ r' ∈ pre ++ r :: post, r'.label ∈ L := by
    intro r' hr'
    rw [hLdef]
    exact List.mem_map_of_mem _ hr'
  have hget : molecules[molecules.indexOf m]? = some m := by
    rw [← List.get?_eq_getElem?]
    exact List.indexOf_get? hm
  rw [List.foldl_append, List.foldl_cons]
  rw [foldl_applyReaction_data_other post _ _ _ (by
    intro r' hr'
    rw [applyReaction_columns, foldl_applyReaction_columns]
    exact Or.inl (fun heq => hpost_ne r' hr'
      ((List.indexOf_inj hmemL
        (hmemL_of r' (by simp [hr']))).mp heq).symm))]
  rw [applyReaction_data_self_at _ r _ _ m
    (by rw [foldl_applyReaction_index]; exact hget)
    (by rw [foldl_applyReaction_columns]; exact hcount)
    (by rw [foldl_applyReaction_columns])]
  rw [foldl_applyReaction_data_other pre _ _ _ (by
    intro r' hr'
    exact Or.inl (fun heq => hpre_ne r' hr'
      ((List.indexOf_inj hmemL
        (hmemL_of r' (by simp [hr']))).mp heq).symm))]

/-- C5: with pairwise-distinct labels and a molecule set covering all
reactants and products, every cell (m, r.label) of the built matrix equals
(product coefficient of m, else 0) minus (reactant coefficient of m, else
0); a pair with no involvement holds exactly 0, and a molecule listed as
both reactant and product of r with equal coefficients yields exactly 0. -/
theorem getStoichiometryMatrix_cell_eq_net (reactions : List Reaction)
    (molecules : List String)
    (hlab : (reactions.map (·.label)).Nodup)
    (hmol : molecules.Nodup)
    (hcov : ∀ r' ∈ reactions, ∀ n ∈ reactionMoleculeNames r',
      n ∈ molecules)
    (r : Reaction) (hr : r ∈ reactions) (m : String) (hm : m ∈ molecules) :
    (getStoichiometryMatrix reactions molecules).cell m r.label
        = ((stoichDict r.products) m).getD 0
          - ((stoichDict r.reactants) m).getD 0
    ∧ (m ∉ reactionMoleculeNames r →
        (getStoichiometryMatrix reactions molecules).cell m r.label = 0)
    ∧ (∀ c : ℚ, stoichDict r.reactants m = some c →
        stoichDict r.products m = some c →
        (getStoichiometryMatrix reactions molecules).cell m r.label = 0) := by
  obtain ⟨pre, post, rfl⟩ := List.append_of_mem hr
  have hcell : (getStoichiometryMatrix (pre ++ r :: post) molecules).cell
      m r.label
      = ((pre ++ r :: post).foldl applyReaction
          ⟨molecules, (pre ++ r :: post).map (·.label), fun _ _ => 0⟩).data
          (molecules.indexOf m)
          (((pre ++ r :: post).map (·.label)).indexOf r.label) := by
    simp only [getStoichiometryMatrix, DFrame.cell]
    rw [foldl_applyReaction_index, foldl_applyReaction_columns]
  have hkey := fold_split_cell pre post r molecules m hm _ rfl hlab
  rw [hcell, hkey]
  have hiff : m ∉ reactionMoleculeNames r →
      stoichDict r.products m = none ∧ stoichDict r.reactants m = none := by
    intro hnm
    constructor
    · refine stoichDict_eq_none _ _ (fun hx => hnm ?_)
      unfold reactionMoleculeNames
      rw [List.mem_dedup, List.mem_append]
      exact Or.inr hx
    · refine stoichDict_eq_none _ _ (fun hx => hnm ?_)
      unfold reactionMoleculeNames
      rw [List.mem_dedup, List.mem_append]
      exact Or.inl hx
  refine ⟨?_, ?_, ?_⟩
  · by_cases hmem : m ∈ reactionMoleculeNames r
    · rw [if_pos hmem]
      rfl
    · rw [if_neg hmem, (hiff hmem).1, (hiff hmem).2]
      simp
  · intro hmem
    rw [if_neg hmem]
  · intro c hrc hpc
    by_cases hmem : m ∈ reactionMoleculeNames r
    · rw [if_pos hmem]
      unfold netStoich
      rw [hrc, hpc]
      simp
    · rw [if_neg hmem]

/-- Witness for the builder cell computation: reaction R1 converting one A
into one B over molecule set A, B; the cell at (B, R1) is its net
production, 1. -/
theorem getStoichiometryMatrix_cell_eq_net_witness :
    (getStoichiometryMatrix [⟨"R1", [⟨⟨"A"⟩, 1⟩], [⟨⟨"B"⟩, 1⟩], "o"⟩]
      ["A", "B"]).cell "B" "R1" = 1 := by
  have h := (getStoichiometryMatrix_cell_eq_net
    [⟨"R1", [⟨⟨"A"⟩, 1⟩], [⟨⟨"B"⟩, 1⟩], "o"⟩] ["A", "B"]
    (by decide) (by decide) (by decide)
    ⟨"R1", [⟨⟨"A"⟩, 1⟩], [⟨⟨"B"⟩, 1⟩], "o"⟩ (by decide) "B"
    (by decide)).1
  exact h.trans (by
    norm_num [stoichDict, List.find?,
      show (("A" : String) == "B") = false from rfl,
      show (("B" : String) == "B") = true from rfl])

/-- C3 evaluation at a duplicate-label input: two reactions labelled R
yield no error - the builder returns a frame whose column labels are
R twice, and (because the chained write under a duplicated label mutates
a pandas copy) every data entry is still 0. -/
theorem getStoichiometryMatrix_duplicate_label_no_error :
    (getStoichiometryMatrix
        [⟨"R", [⟨⟨"A"⟩, 1⟩], [⟨⟨"B"⟩, 1⟩], "o"⟩,
          ⟨"R", [⟨⟨"B"⟩, 1⟩], [⟨⟨"A"⟩, 1⟩], "o"⟩] ["A", "B"]).columns
      = ["R", "R"]
    ∧ (getStoichiometryMatrix
        [⟨"R", [⟨⟨"A"⟩, 1⟩], [⟨⟨"B"⟩, 1⟩], "o"⟩,
          ⟨"R", [⟨⟨"B"⟩, 1⟩], [⟨⟨"A"⟩, 1⟩], "o"⟩] ["A", "B"]).data 0 0 = 0
    ∧ (getStoichiometryMatrix
        [⟨"R", [⟨⟨"A"⟩, 1⟩], [⟨⟨"B"⟩, 1⟩], "o"⟩,
          ⟨"R", [⟨⟨"B"⟩, 1⟩], [⟨⟨"A"⟩, 1⟩], "o"⟩] ["A", "B"]).data 0 1 = 0
    ∧ (getStoichiometryMatrix
        [⟨"R", [⟨⟨"A"⟩, 1⟩], [⟨⟨"B"⟩, 1⟩], "o"⟩,
          ⟨"R", [⟨⟨"B"⟩, 1⟩], [⟨⟨"A"⟩, 1⟩], "o"⟩] ["A", "B"]).data 1 0 = 0
    ∧ (getStoichiometryMatrix
        [⟨"R", [⟨⟨"A"⟩, 1⟩], [⟨⟨"B"⟩, 1⟩], "o"⟩,
          ⟨"R", [⟨⟨"B"⟩, 1⟩], [⟨⟨"A"⟩, 1⟩], "o"⟩] ["A", "B"]).data 1 1 = 0
    := ⟨rfl, rfl, rfl, rfl, rfl⟩

/-- C3 (as amended): duplicate reaction labels are not detected.  The
builder always returns a frame whose column labels are the reaction
labels verbatim - duplicates included - and any column position carrying
a duplicated label keeps its initial 0.0 in every row, because the
chained assignment under a duplicated label writes to a copy. -/
theorem getStoichiometryMatrix_duplicate_label_silent
    (reactions : List Reaction) (molecules : List String) (lab : String)
    (hdup : (reactions.map (·.label)).count lab ≠ 1) (i j : ℕ)
    (hj : (reactions.map (·.label))[j]? = some lab) :
    (getStoichiometryMatrix reactions molecules).columns
        = reactions.map (·.label)
    ∧ (getStoichiometryMatrix reactions molecules).data i j = 0 := by
  refine ⟨getStoichiometryMatrix_columns reactions molecules, ?_⟩
  have hother : ∀ r' ∈ reactions,
      j ≠ ((reactions.map (·.label)).indexOf r'.label)
        ∨ (reactions.map (·.label)).count r'.label ≠ 1 := by
    intro r' hr'
    by_cases hc : (reactions.map (·.label)).count r'.label = 1
    · refine Or.inl (fun heq => ?_)
      have hmem : r'.label ∈ reactions.map (·.label) :=
        List.mem_map_of_mem _ hr'
      have : (reactions.map (·.label))[j]? = some r'.label := by
        rw [heq, ← List.get?_eq_getElem?]
        exact List.indexOf_get? hmem
      rw [hj] at this
      exact hdup (Option.some_inj.mp this ▸ hc)
    · exact Or.inr hc
  simp only [getStoichiometryMatrix]
  rw [foldl_applyReaction_data_other reactions _ i j hother]

/-- Witness for the duplicate-label behaviour: the two R-labelled
reactions above, evaluated at the second R column's top row. -/
theorem getStoichiometryMatrix_duplicate_label_silent_witness :
    (getStoichiometryMatrix
        [⟨"R", [⟨⟨"A"⟩, 1⟩], [⟨⟨"B"⟩, 1⟩], "o"⟩,
          ⟨"R", [⟨⟨"B"⟩, 1⟩], [⟨⟨"A"⟩, 1⟩], "o"⟩] ["A", "B"]).columns
      = ([⟨"R", [⟨⟨"A"⟩, 1⟩], [⟨⟨"B"⟩, 1⟩], "o"⟩,
          ⟨"R", [⟨⟨"B"⟩, 1⟩], [⟨⟨"A"⟩, 1⟩], "o"⟩] : List Reaction).map
          (·.label)
    ∧ (getStoichiometryMatrix
        [⟨"R", [⟨⟨"A"⟩, 1⟩], [⟨⟨"B"⟩, 1⟩], "o"⟩,
          ⟨"R", [⟨⟨"B"⟩, 1⟩], [⟨⟨"A"⟩, 1⟩], "o"⟩] ["A", "B"]).data 0 1
      = 0 :=
  getStoichiometryMatrix_duplicate_label_silent
    [⟨"R", [⟨⟨"A"⟩, 1⟩], [⟨⟨"B"⟩, 1⟩], "o"⟩,
      ⟨"R", [⟨⟨"B"⟩, 1⟩], [⟨⟨"A"⟩, 1⟩], "o"⟩] ["A", "B"] "R"
    (by decide) 0 1 (by decide)

/-- C9: the matrix built during `Message.__init__` is derived only from
non-boundary reactions.  Under the upstream guarantee of unique reaction
labels, no boundary reaction's label appears among its columns, and its
rows are exactly the names occurring as a reactant or product of some
non-boundary reaction. -/
theorem mkMessage_nonboundary (simple : SimpleSBML)
    (hlab : (simple.reactions.map (·.label)).Nodup) :
    (∀ r ∈ simple.reactions, r.category = REACTION_BOUNDARY →
        r.label ∉ (mkMessage simple).stoichiometry_matrix.columns)
    ∧ (∀ n, n ∈ (mkMessage simple).stoichiometry_matrix.index ↔
        ∃ r ∈ simple.reactions, r.category ≠ REACTION_BOUNDARY ∧
          (n ∈ r.reactants.map (·.molecule.name)
            ∨ n ∈ r.products.map (·.molecule.name))) := by
  have hmat : (mkMessage simple).stoichiometry_matrix
      = getStoichiometryMatrix (_getNonBoundaryReactions simple)
          (_getNonBoundaryMolecules (_getNonBoundaryReactions simple)) :=
    rfl
  constructor
  · intro r hr hcat hmem
    rw [hmat, getStoichiometryMatrix_columns] at hmem
    obtain ⟨r', hr', heq⟩ := List.mem_map.mp hmem
    have hr'filter := List.mem_filter.mp hr'
    have hreq : r' = r :=
      List.inj_on_of_nodup_map hlab hr'filter.1 hr heq
    have := hr'filter.2
    rw [hreq, hcat] at this
    simp at this
  · intro n
    rw [hmat, getStoichiometryMatrix_index]
    unfold _getNonBoundaryMolecules _getNonBoundaryReactions
    rw [List.mem_dedup, List.mem_flatMap]
    constructor
    · rintro ⟨r, hr, hn⟩
      have hrf := List.mem_filter.mp hr
      refine ⟨r, hrf.1, by simpa using hrf.2, ?_⟩
      rcases List.mem_append.mp hn with h | h
      · exact Or.inl h
      · exact Or.inr h
    · rintro ⟨r, hr, hcat, hn⟩
      refine ⟨r, List.mem_filter.mpr ⟨hr, by simpa using hcat⟩, ?_⟩
      rcases hn with h | h
      · exact List.mem_append.mpr (Or.inl h)
      · exact List.mem_append.mpr (Or.inr h)

/-- Witness for the boundary-exclusion invariant: a model with one
ordinary reaction A to B and one boundary reaction consuming C. -/
theorem mkMessage_nonboundary_witness :
    (∀ r ∈ (⟨[⟨"R1", [⟨⟨"A"⟩, 1⟩], [⟨⟨"B"⟩, 1⟩], "o"⟩,
          ⟨"RB", [⟨⟨"C"⟩, 1⟩], [], REACTION_BOUNDARY⟩]⟩ :
            SimpleSBML).reactions,
        r.category = REACTION_BOUNDARY →
        r.label ∉ (mkMessage ⟨[⟨"R1", [⟨⟨"A"⟩, 1⟩], [⟨⟨"B"⟩, 1⟩], "o"⟩,
          ⟨"RB", [⟨⟨"C"⟩, 1⟩], [], REACTION_BOUNDARY⟩]⟩).stoichiometry_matrix.columns)
    ∧ (∀ n, n ∈ (mkMessage ⟨[⟨"R1", [⟨⟨"A"⟩, 1⟩], [⟨⟨"B"⟩, 1⟩], "o"⟩,
          ⟨"RB", [⟨⟨"C"⟩, 1⟩], [], REACTION_BOUNDARY⟩]⟩).stoichiometry_matrix.index ↔
        ∃ r ∈ (⟨[⟨"R1", [⟨⟨"A"⟩, 1⟩], [⟨⟨"B"⟩, 1⟩], "o"⟩,
          ⟨"RB", [⟨⟨"C"⟩, 1⟩], [], REACTION_BOUNDARY⟩]⟩ :
            SimpleSBML).reactions,
          r.category ≠ REACTION_BOUNDARY ∧
          (n ∈ r.reactants.map (·.molecule.name)
            ∨ n ∈ r.products.map (·.molecule.name))) :=
  mkMessage_nonboundary
    ⟨[⟨"R1", [⟨⟨"A"⟩, 1⟩], [⟨⟨"B"⟩, 1⟩], "o"⟩,
      ⟨"RB", [⟨⟨"C"⟩, 1⟩], [], REACTION_BOUNDARY⟩]⟩ (by decide)


/-- A row interchange permutes the list. -/
lemma listSwap_perm {α : Type} [DecidableEq α] (l : List α) (i j : ℕ) :
    (listSwap l i j).Perm l := by
  unfold listSwap
  split
  · next a b hi hj =>
    rw [List.get?_eq_getElem?] at hi hj
    obtain ⟨hil, hia⟩ := List.getElem?_eq_some_iff.mp hi
    obtain ⟨hjl, hjb⟩ := List.getElem?_eq_some_iff.mp hj
    rw [List.perm_iff_count]
    intro c
    have hjl' : j < (l.set i b).length := by
      rw [List.length_set]
      exact hjl
    rw [List.count_set _ _ _ _ hjl', List.count_set _ _ _ _ hil]
    have hsetj : (l.set i b)[j] = b := by
      rw [List.getElem_set]
      split
      · rfl
      · exact hjb
    rw [hsetj, hia]
    have hmema : a ∈ l := hia ▸ List.getElem_mem hil
    by_cases hac : a = c
    · have h1 : 1 ≤ List.count c l := List.one_le_count_iff.mpr (hac ▸ hmema)
      by_cases hbc : b = c
      · simp only [hac, hbc, beq_self_eq_true, if_true]
        omega
      · simp only [hac, beq_self_eq_true, if_true,
          show (b == c) = false from by simp [hbc], if_false,
          Bool.false_eq_true]
        omega
    · by_cases hbc : b = c
      · simp only [hbc, beq_self_eq_true, if_true,
          show (a == c) = false from by simp [hac], if_false,
          Bool.false_eq_true]
        omega
      · simp only [show (a == c) = false from by simp [hac],
          show (b == c) = false from by simp [hbc], if_false,
          Bool.false_eq_true]
        omega
  · exact List.Perm.refl l

/-- A row interchange keeps the length. -/
lemma listSwap_length {α : Type} (l : List α) (i j : ℕ) :
    (listSwap l i j).length = l.length := by
  unfold listSwap
  split
  · rw [List.length_set, List.length_set]
  · rfl

/-- One elimination step permutes the provenance list. -/
lemma luStep_perm_perm (m : ℕ) (st : LUState) (k : ℕ) :
    (luStep m st k).perm.Perm st.perm :=
  listSwap_perm _ _ _

/-- The elimination loop permutes the provenance list. -/
lemma luLoop_perm_perm (m : ℕ) (fuel k : ℕ) (st : LUState) :
    (luLoop m fuel k st).perm.Perm st.perm := by
  induction fuel generalizing k st with
  | zero => exact List.Perm.refl _
  | succ fuel ih =>
    exact (ih (k + 1) (luStep m st k)).trans (luStep_perm_perm m st k)

/-- The pivot search over a single row always picks it. -/
lemma argmaxAbs_singleton (x : ℚ) : argmaxAbs [x] = 0 := by
  unfold argmaxAbs
  rw [List.foldl_cons, List.foldl_nil]
  split <;> rfl

/-- The pivot search on leading column (1, 2) picks the second row. -/
lemma argmaxAbs_one_two : argmaxAbs [(1 : ℚ), 2] = 1 := by
  unfold argmaxAbs
  rw [List.foldl_cons, List.foldl_cons, List.foldl_nil]
  rw [if_pos (show ((0, 0, (-1 : ℚ)) : ℕ × ℕ × ℚ).2.2 < |1| from by
    rw [abs_one]; norm_num)]
  rw [if_pos (show ((0, 0 + 1, |(1 : ℚ)|) : ℕ × ℕ × ℚ).2.2 < |2| from by
    rw [abs_one, show |(2 : ℚ)| = 2 from abs_of_pos (by norm_num)]
    norm_num)]

/-- Reading a list back off its positions recovers it. -/
lemma range_map_getD {α : Type} (l : List α) (d : α) :
    (List.range l.length).map (fun i => l.getD i d) = l := by
  apply List.ext_getElem
  · simp
  · intro i h1 h2
    simp [List.getD_eq_getElem?_getD, List.getElem?_eq_getElem h2]

/-- C2 (as amended): whenever `decomposeMatrix` succeeds, the reduced
frame keeps the input's shape and its row labels verbatim, but its column
labels are a permutation of the input's column labels - the permutation
induced by the elimination's pivoting, not necessarily the original
order. -/
theorem decomposeMatrix_shape (mat_df : DFrame) (l : List (List ℚ))
    (red : DFrame) (h : decomposeMatrix mat_df = Except.ok (l, red)) :
    red.index = mat_df.index
    ∧ red.columns.Perm mat_df.columns
    ∧ red.columns.length = mat_df.columns.length
    ∧ red.index.length = mat_df.index.length := by
  unfold decomposeMatrix at h
  dsimp only at h
  split at h
  · rw [Except.ok.injEq, Prod.mk.injEq] at h
    obtain ⟨-, hred⟩ := h
    subst hred
    refine ⟨rfl, ?_, ?_, rfl⟩
    · show (((luDecompose mat_df.columns.length mat_df.index.length
          (fun i j => mat_df.data j i)).2.2).map
          (fun i => mat_df.columns.getD i "")).Perm mat_df.columns
      have hperm : ((luDecompose mat_df.columns.length mat_df.index.length
          (fun i j => mat_df.data j i)).2.2).Perm
          (List.range mat_df.columns.length) :=
        luLoop_perm_perm _ _ _ _
      have hmap := hperm.map (fun i => mat_df.columns.getD i "")
      rw [range_map_getD] at hmap
      exact hmap
    · show (((luDecompose mat_df.columns.length mat_df.index.length
          (fun i j => mat_df.data j i)).2.2).map
          (fun i => mat_df.columns.getD i "")).length
        = mat_df.columns.length
      have hperm : ((luDecompose mat_df.columns.length mat_df.index.length
          (fun i j => mat_df.data j i)).2.2).Perm
          (List.range mat_df.columns.length) :=
        luLoop_perm_perm _ _ _ _
      rw [List.length_map, hperm.length_eq, List.length_range]
  · exact absurd h (by simp)

/-- Witness for the reduced-shape theorem at a concrete success: the
one-molecule, zero-reaction frame. -/
theorem decomposeMatrix_shape_witness :
    (⟨["A"], [], fun i j =>
        ((([] : List (List ℚ)).getD j []).getD i 0)⟩ : DFrame).index
        = (⟨["A"], [], fun _ _ => 0⟩ : DFrame).index
    ∧ (⟨["A"], [], fun i j =>
        ((([] : List (List ℚ)).getD j []).getD i 0)⟩ : DFrame).columns.Perm
        (⟨["A"], [], fun _ _ => 0⟩ : DFrame).columns
    ∧ (⟨["A"], [], fun i j =>
        ((([] : List (List ℚ)).getD j []).getD i 0)⟩ : DFrame).columns.length
        = (⟨["A"], [], fun _ _ => 0⟩ : DFrame).columns.length
    ∧ (⟨["A"], [], fun i j =>
        ((([] : List (List ℚ)).getD j []).getD i 0)⟩ : DFrame).index.length
        = (⟨["A"], [], fun _ _ => 0⟩ : DFrame).index.length :=
  decomposeMatrix_shape ⟨["A"], [], fun _ _ => 0⟩ []
    ⟨["A"], [], fun i j => ((([] : List (List ℚ)).getD j []).getD i 0)⟩ rfl

/-- C4 evaluation at a zero-molecule input: one reaction, no molecules.
The upper factor has min(1, 0) = 0 rows while the relabelled frame is
given 1 row label, so the pandas construction raises instead of returning
an empty frame. -/
theorem decomposeMatrix_zero_molecules_raises :
    decomposeMatrix ⟨[], ["R1"], fun _ _ => 0⟩
      = Except.error "ValueError" := rfl

/-- C4 (as amended): a zero-reaction (zero-column) input does produce an
empty reduced frame of matching shape without error; it is the
zero-molecule inputs with at least one reaction that raise. -/
theorem decomposeMatrix_zero_reactions (mat_df : DFrame)
    (h : mat_df.columns = []) :
    ∃ red, decomposeMatrix mat_df = Except.ok ([], red)
      ∧ red.index = mat_df.index ∧ red.columns = [] := by
  obtain ⟨idx, cols, data⟩ := mat_df
  simp only at h
  subst h
  unfold decomposeMatrix luDecompose
  dsimp only
  rw [show (min ([] : List String).length idx.length)
      = ([] : List String).length from by simp]
  rw [if_pos rfl]
  exact ⟨_, rfl, rfl, rfl⟩

/-- Witness for the zero-reaction case: one molecule, no reactions. -/
theorem decomposeMatrix_zero_reactions_witness :
    ∃ red, decomposeMatrix ⟨["A"], [], fun _ _ => 0⟩
        = Except.ok ([], red)
      ∧ red.index = (⟨["A"], [], fun _ _ => 0⟩ : DFrame).index
      ∧ red.columns = [] :=
  decomposeMatrix_zero_reactions ⟨["A"], [], fun _ _ => 0⟩ rfl

/-- C2 counterexample: on the concrete two-reaction frame whose transpose
forces a pivot interchange, the reduced frame's column labels come back
as R2, R1 - the pivoted order - while the input's columns are R1, R2, so
the reducer does not preserve column labels in their original order. -/
theorem decomposeMatrix_pivot_reorders_columns :
    (decomposeMatrix pivotExample).map (fun pr => pr.2.columns)
      = Except.ok ["R2", "R1"]
    ∧ pivotExample.columns = ["R1", "R2"] := by
  refine ⟨?_, rfl⟩
  have hperm : (luDecompose pivotExample.columns.length
      pivotExample.index.length
      (fun i j => pivotExample.data j i)).2.2 = [1, 0] := by
    show (luStep 2 (luStep 2 ⟨fun i j => pivotExample.data j i,
        List.range 2⟩ 0) 1).perm = [1, 0]
    show listSwap (luStep 2 ⟨fun i j => pivotExample.data j i,
        List.range 2⟩ 0).perm 1
        (1 + argmaxAbs ((List.range (2 - 1)).map (fun t =>
          (luStep 2 ⟨fun i j => pivotExample.data j i,
            List.range 2⟩ 0).mat (1 + t) 1))) = [1, 0]
    rw [show (List.range (2 - 1)).map (fun t =>
          (luStep 2 ⟨fun i j => pivotExample.data j i,
            List.range 2⟩ 0).mat (1 + t) 1)
        = [(luStep 2 ⟨fun i j => pivotExample.data j i,
            List.range 2⟩ 0).mat (1 + 0) 1] from rfl]
    rw [argmaxAbs_singleton]
    show listSwap (listSwap (List.range 2) 0
        (0 + argmaxAbs ((List.range (2 - 0)).map (fun t =>
          (⟨fun i j => pivotExample.data j i,
            List.range 2⟩ : LUState).mat (0 + t) 0)))) 1 (1 + 0)
      = [1, 0]
    rw [show (List.range (2 - 0)).map (fun t =>
          (⟨fun i j => pivotExample.data j i,
            List.range 2⟩ : LUState).mat (0 + t) 0)
        = [(1 : ℚ), 2] from rfl,
      argmaxAbs_one_two]
    rfl
  have hc : min pivotExample.columns.length pivotExample.index.length
      = pivotExample.columns.length := by decide
  unfold decomposeMatrix
  dsimp only
  rw [hperm, if_pos hc]
  rfl
